import Mathlib

/-!
Verification of the Metrics & Insight Engine of the sales-analytics
repository (`src/sales_analysis.py`).

The script is a pandas pipeline.  We embed it shallowly:

* transaction amounts are exact rationals (`ℚ`);
* pandas float results that can be `NaN` or `±inf` (every ratio, since
  pandas division by zero yields `NaN` for `0/0` and a signed infinity
  otherwise, raising no exception) are modelled by `PFloat`, a four-way
  sum `nan | pinf | ninf | fin q` with the IEEE-style arithmetic that
  numpy/pandas use on such values;
* `groupby` over a column becomes: sorted list of distinct keys, then a
  per-key fold over the matching rows (pandas sorts group keys);
* `sort_values` becomes the stable `List.insertionSort` under a
  comparison that, like pandas, places `NaN` keys last;
* fallible accesses (`iloc[0]` on an empty frame, `idxmin` on an
  all-`NaN` column, both of which raise in pandas) become `Option`.
-/

set_option maxRecDepth 8000

/- The Batteries rational-number operations are `@[irreducible]`, which
stops `decide` from evaluating the concrete datasets below; within this
file they are restored to normal reducibility (the kernel re-checks
every such proof by full reduction anyway). -/
attribute [local semireducible] Rat.add Rat.mul Rat.sub Rat.inv

namespace SalesAnalysis

/-- Model of the numpy/pandas double as used by the script: a rational
value, a signed infinity, or `NaN`.  Rounding is not modelled (amounts
stay exact), only the special values that zero-denominator ratios
produce. -/
inductive PFloat where
  | nan : PFloat
  | pinf : PFloat
  | ninf : PFloat
  | fin : ℚ → PFloat
deriving DecidableEq, Repr, Inhabited

namespace PFloat

/-- `NaN` test (pandas `isnull` on a float column is exactly this). -/
def isNaN : PFloat → Bool
  | .nan => true
  | _ => false

/-- IEEE negation. -/
def neg : PFloat → PFloat
  | .nan => .nan
  | .pinf => .ninf
  | .ninf => .pinf
  | .fin q => .fin (-q)

/-- IEEE addition as performed by numpy: `NaN` is absorbing and
`inf + (-inf) = NaN`. -/
def add : PFloat → PFloat → PFloat
  | .nan, _ => .nan
  | _, .nan => .nan
  | .pinf, .ninf => .nan
  | .ninf, .pinf => .nan
  | .pinf, _ => .pinf
  | _, .pinf => .pinf
  | .ninf, _ => .ninf
  | _, .ninf => .ninf
  | .fin a, .fin b => .fin (a + b)

/-- IEEE multiplication: `0 * inf = NaN`, signs propagate. -/
def mul : PFloat → PFloat → PFloat
  | .nan, _ => .nan
  | _, .nan => .nan
  | .pinf, .pinf => .pinf
  | .pinf, .ninf => .ninf
  | .ninf, .pinf => .ninf
  | .ninf, .ninf => .pinf
  | .pinf, .fin b => if b = 0 then .nan else if 0 < b then .pinf else .ninf
  | .fin a, .pinf => if a = 0 then .nan else if 0 < a then .pinf else .ninf
  | .ninf, .fin b => if b = 0 then .nan else if 0 < b then .ninf else .pinf
  | .fin a, .ninf => if a = 0 then .nan else if 0 < a then .ninf else .pinf
  | .fin a, .fin b => .fin (a * b)

/-- IEEE division as performed by numpy on array elements: `0/0 = NaN`,
`x/0 = ±inf` for `x ≠ 0` (no exception is raised), `x/inf = 0`,
`inf/inf = NaN`.  The model has a single zero, which behaves as IEEE
`+0`. -/
def div : PFloat → PFloat → PFloat
  | .nan, _ => .nan
  | _, .nan => .nan
  | .pinf, .pinf => .nan
  | .pinf, .ninf => .nan
  | .ninf, .pinf => .nan
  | .ninf, .ninf => .nan
  | .pinf, .fin b => if 0 ≤ b then .pinf else .ninf
  | .ninf, .fin b => if 0 ≤ b then .ninf else .pinf
  | .fin _, .pinf => .fin 0
  | .fin _, .ninf => .fin 0
  | .fin a, .fin b =>
      if b = 0 then (if a = 0 then .nan else if 0 < a then .pinf else .ninf)
      else .fin (a / b)

/-- IEEE comparison `a <= b`: any comparison against `NaN` is false. -/
def le : PFloat → PFloat → Bool
  | .nan, _ => false
  | _, .nan => false
  | .ninf, _ => true
  | _, .pinf => true
  | .pinf, _ => false
  | _, .ninf => false
  | .fin a, .fin b => decide (a ≤ b)

/-- IEEE comparison `a < b`: any comparison against `NaN` is false. -/
def lt : PFloat → PFloat → Bool
  | .nan, _ => false
  | _, .nan => false
  | .pinf, _ => false
  | _, .ninf => false
  | .ninf, _ => true
  | _, .pinf => true
  | .fin a, .fin b => decide (a < b)

instance : Neg PFloat := ⟨PFloat.neg⟩
instance : Add PFloat := ⟨PFloat.add⟩
instance : Sub PFloat := ⟨fun a b => a.add b.neg⟩
instance : Mul PFloat := ⟨PFloat.mul⟩
instance : Div PFloat := ⟨PFloat.div⟩

/-- The key order used by `sort_values` on a float column: `NaN` keys go
last (pandas `na_position` default), the rest are ordered by value.  The
sort itself is stable, like pandas' default sorting of a small frame. -/
def sortLe (a b : PFloat) : Bool :=
  if b.isNaN then true
  else if a.isNaN then false
  else a.le b

@[simp] theorem fin_add_fin (a b : ℚ) : (fin a) + (fin b) = fin (a + b) := rfl

@[simp] theorem fin_sub_fin (a b : ℚ) : (fin a) - (fin b) = fin (a - b) := by
  show PFloat.add _ _ = _
  simp [PFloat.add, PFloat.neg, sub_eq_add_neg]

@[simp] theorem fin_mul_fin (a b : ℚ) : (fin a) * (fin b) = fin (a * b) := rfl

theorem fin_div_fin (a b : ℚ) (hb : b ≠ 0) : (fin a) / (fin b) = fin (a / b) := by
  show PFloat.div _ _ = _
  simp [PFloat.div, hb]

theorem fin_div_fin_zero (a : ℚ) :
    (fin a) / (fin 0) =
      if a = 0 then nan else if 0 < a then pinf else ninf := by
  show PFloat.div _ _ = _
  simp [PFloat.div]

@[simp] theorem sortLe_fin_fin (a b : ℚ) : sortLe (fin a) (fin b) = decide (a ≤ b) := rfl

@[simp] theorem le_fin_fin (a b : ℚ) : le (fin a) (fin b) = decide (a ≤ b) := rfl

@[simp] theorem isNaN_fin (a : ℚ) : (fin a).isNaN = false := rfl

/-- `sortLe` is total, as `mergeSort` requires. -/
theorem sortLe_total (a b : PFloat) : sortLe a b || sortLe b a := by
  cases a <;> cases b <;> simp [sortLe, isNaN, le] <;> exact le_total _ _

/-- `sortLe` is transitive, as `mergeSort` requires. -/
theorem sortLe_trans (a b c : PFloat) :
    sortLe a b → sortLe b c → sortLe a c := by
  cases a <;> cases b <;> cases c <;>
    simp [sortLe, isNaN, le] <;> exact fun h1 h2 => le_trans h1 h2

/-- `sortLe` is reflexive. -/
theorem sortLe_refl (a : PFloat) : sortLe a a := by
  cases a <;> simp [sortLe, isNaN, le]

end PFloat

/-! ### Data model

A cleaned transaction record (`TransactionRecord` of the spec, a row of
the cleaned DataFrame).  Labels (`region`, `product_category`,
`customer_id`) are opaque identifiers, modelled as `Nat`.  `date` is a
calendar date encoded as the number `yyyymmdd`, so that the derived
month bucket (`df['Date'].dt.to_period('M')`) is `date / 100` and the
numeric order of both is chronological order. -/
structure Row where
  date : Nat
  region : Nat
  category : Nat
  customerId : Nat
  sales : ℚ
  profit : ℚ
  quantity : ℚ
deriving DecidableEq, Repr, Inhabited

/-- Derived month bucket of a record (`df['Date'].dt.to_period('M')`). -/
def Row.month (r : Row) : Nat := r.date / 100

/-- The distinct keys of a `groupby` over column `f`, in ascending order
(pandas sorts group keys). -/
def keysOf (f : Row → Nat) (rows : List Row) : List Nat :=
  ((rows.map f).dedup).insertionSort (· ≤ ·)

/-! ### Cleaning stage (`load_and_clean_data`) -/

/-- A raw record as it stands right after the
`pd.to_datetime(..., errors='coerce')` step (line 38): any of the
`Date`, `Region`, `Product_Category`, `Sales_Amount`, `Profit` cells may
be missing (`none` models `NaN`/`NaT`). -/
structure RawRecord where
  date : Option Nat
  region : Option Nat
  category : Option Nat
  customerId : Nat
  sales : Option ℚ
  profit : Option ℚ
  quantity : ℚ
deriving DecidableEq, Repr, Inhabited

/-- `df.isnull().sum().sum()` (line 41): the number of missing cells
across the whole frame. -/
def missingCount (raws : List RawRecord) : Nat :=
  (raws.map (fun r =>
    (if r.date.isNone then 1 else 0) + (if r.region.isNone then 1 else 0) +
    (if r.category.isNone then 1 else 0) + (if r.sales.isNone then 1 else 0) +
    (if r.profit.isNone then 1 else 0))).sum

/-- pandas `Series.median()` over the non-null values: middle element of
the sorted values, or the mean of the two middle elements; `none` when
there is no value (`NaN`). -/
def medianQ (xs : List ℚ) : Option ℚ :=
  if xs.isEmpty then none
  else
    let s := xs.insertionSort (· ≤ ·)
    let n := xs.length
    some (if n % 2 = 1 then s.getD (n / 2) 0
          else (s.getD (n / 2 - 1) 0 + s.getD (n / 2) 0) / 2)

/-- The per-category median fill of a missing `Sales_Amount` (lines
45-48, `groupby('Product_Category').transform(fillna(median))`): the
median is taken over the non-null sales of the record's category; a
record whose category is null is not part of any group and keeps its
`NaN`, as does a record of an all-null-sales category. -/
def fillSalesRow (raws : List RawRecord) (r : RawRecord) : RawRecord :=
  match r.sales with
  | some _ => r
  | none =>
    match r.category with
    | none => r
    | some c =>
      { r with sales := medianQ ((raws.filter
          (fun x => decide (x.category = some c))).filterMap RawRecord.sales) }

/-- Lines 45-48: the sales fill is applied only when some sales cell is
null (the guard is a no-op either way, but mirrors the code). -/
def fillSalesList (raws : List RawRecord) : List RawRecord :=
  if raws.any (fun r => r.sales.isNone) then raws.map (fillSalesRow raws) else raws

/-- Lines 50-52: a missing `Profit` is imputed as
`Sales_Amount * 0.30` (exactly 30% of the — possibly just filled —
sales amount); if the sales amount itself is still null, the profit
stays null (`fillna` with a `NaN` filler). -/
def fillProfitRow (r : RawRecord) : RawRecord :=
  match r.profit with
  | some _ => r
  | none => { r with profit := r.sales.map (fun s => s * (3 / 10)) }

/-- Lines 50-52 with their guard. -/
def fillProfitList (rs : List RawRecord) : List RawRecord :=
  if rs.any (fun r => r.profit.isNone) then rs.map fillProfitRow else rs

/-- `load_and_clean_data` (lines 19-66), the data transformations: fill
missing sales by category median, fill missing profit with 30% of
sales, then drop the rows missing `Date`, `Region` or
`Product_Category` (line 55).  The function returns the cleaned frame
and nothing else. -/
def loadAndClean (raws : List RawRecord) : List RawRecord :=
  (fillProfitList (fillSalesList raws)).filter
    (fun r => r.date.isSome && r.region.isSome && r.category.isSome)

/-- `df['Profit'].sum()`: pandas sums skip `NaN` cells. -/
def totalProfit (rs : List RawRecord) : ℚ := (rs.filterMap RawRecord.profit).sum

/-- The console lines `load_and_clean_data` prints (lines 29, 32, 35,
42, 63, 64) — the only reporting the function does besides returning the
frame; dates render as their `yyyymmdd` number here. -/
def loadAndCleanMessages (raws : List RawRecord) : List String :=
  let cleaned := loadAndClean raws
  let range : String :=
    match cleaned.filterMap RawRecord.date with
    | [] => "NaT to NaT"
    | d :: ds => toString (ds.foldl min d) ++ " to " ++ toString (ds.foldl max d)
  ["📊 Loading sales data...",
   "Initial dataset: " ++ toString raws.length ++ " rows, 7 columns",
   "🧹 Cleaning data...",
   "Found " ++ toString (missingCount raws) ++ " missing values",
   "✅ Clean dataset: " ++ toString cleaned.length ++ " rows",
   "Date range: " ++ range]

/-- Substring test on character lists (helper for stating what the
console messages do NOT mention). -/
def containsSubAux (pat : List Char) : List Char → Bool
  | [] => pat.isEmpty
  | c :: cs => pat.isPrefixOf (c :: cs) || containsSubAux pat cs

/-- `containsSub pat s` is true iff `pat` occurs contiguously in `s`. -/
def containsSub (pat s : String) : Bool := containsSubAux pat.toList s.toList

/-! ### Metrics Engine (`calculate_pm_metrics`) -/

/-- One row of a `groupby(col).agg({Sales_Amount: sum, Profit: sum})`
frame with the derived margin column
`Profit / Sales_Amount * 100` (used both for `regional_margins` and for
the per-category performance inside the weakest region). -/
structure KeyStat where
  key : Nat
  sales : ℚ
  profit : ℚ
  margin : PFloat
deriving DecidableEq, Repr, Inhabited

/-- The aggregate row of the group of `rows` whose `f`-column equals
`k`. -/
def mkKeyStat (f : Row → Nat) (rows : List Row) (k : Nat) : KeyStat :=
  let g := rows.filter (fun r => decide (f r = k))
  let s := (g.map Row.sales).sum
  let p := (g.map Row.profit).sum
  { key := k, sales := s, profit := p,
    margin := (PFloat.fin p / PFloat.fin s) * PFloat.fin 100 }

/-- `regional_margins` (lines 105-110): per-region sales, profit and
profit margin. -/
def regionalMargins (rows : List Row) : List KeyStat :=
  (keysOf Row.region rows).map (mkKeyStat Row.region rows)

/-- `category_performance` (lines 450-455): per-category sales, profit
and margin of a given record set. -/
def categoryMargins (rows : List Row) : List KeyStat :=
  (keysOf Row.category rows).map (mkKeyStat Row.category rows)

/-- `monthly_sales['Sales_Amount']` (line 81): total sales per month,
chronologically ordered (the `groupby` sorts the month keys). -/
def monthlySales (rows : List Row) : List ℚ :=
  (keysOf Row.month rows).map
    (fun k => ((rows.filter (fun r => decide (r.month = k))).map Row.sales).sum)

/-- `pct_change() * 100` (line 83) over a series of exact totals: entry 0
is `NaN`; entry `i > 0` is `(cur/prev - 1) * 100` under IEEE division,
so a zero previous total yields `NaN` (if the current total is also 0)
or a signed infinity. -/
def pctChange100 (xs : List ℚ) : List PFloat :=
  (List.range xs.length).map fun i =>
    if i = 0 then PFloat.nan
    else (PFloat.fin (xs.getD i 0) / PFloat.fin (xs.getD (i - 1) 0)
            - PFloat.fin 1) * PFloat.fin 100

/-- The `MRR_Growth` column (line 83). -/
def mrrGrowth (rows : List Row) : List PFloat := pctChange100 (monthlySales rows)

/-- Left-to-right IEEE sum, the reduction numpy performs. -/
def sumPF (l : List PFloat) : PFloat := l.foldl (· + ·) (PFloat.fin 0)

/-- pandas `Series.mean()`: drop the `NaN` entries (`skipna=True`
default), then sum the remaining entries (which may include signed
infinities — those are NOT dropped) and divide by their count; the mean
of an all-`NaN`/empty series is `NaN`. -/
def meanSkipna (xs : List PFloat) : PFloat :=
  let v := xs.filter (fun x => !x.isNaN)
  if v.isEmpty then PFloat.nan else sumPF v / PFloat.fin (v.length : ℚ)

/-- `avg_mrr_growth` (line 85). -/
def avgMrrGrowth (rows : List Row) : PFloat := meanSkipna (mrrGrowth rows)

/-- Number of distinct months in the dataset (`monthly_customers` has
one row per month, line 91). -/
def monthCount (rows : List Row) : Nat := (keysOf Row.month rows).length

/-- The mocked CAC column (lines 95-96): `150 * 0.98 ** i` at
chronological month index `i`, one entry per distinct month.  `0.98` is
the exact rational `49/50` here. -/
def cacSeries (rows : List Row) : List ℚ :=
  (List.range (monthCount rows)).map fun i => 150 * (49 / 50 : ℚ) ^ i

/-- `cac_improvement` (lines 99-100): `(first - last) / first * 100`;
`iloc[0]`/`iloc[-1]` raise on an empty frame, hence `Option`. -/
def cacImprovement (rows : List Row) : Option ℚ :=
  match cacSeries rows with
  | [] => none
  | c :: rest => some ((c - (c :: rest).getLast (List.cons_ne_nil c rest)) / c * 100)

/-! ### Segmentation Engine (`analyze_customer_segments`, part 1) -/

/-- One row of `customer_orders` (lines 244-250): per-customer revenue,
order count (row count), profit and quantity. -/
structure CustomerAgg where
  id : Nat
  totalRevenue : ℚ
  orderCount : Nat
  totalProfit : ℚ
  totalQuantity : ℚ
deriving DecidableEq, Repr, Inhabited

/-- The per-customer aggregation (lines 244-250). -/
def customerProfiles (rows : List Row) : List CustomerAgg :=
  (keysOf Row.customerId rows).map fun c =>
    let g := rows.filter (fun r => decide (r.customerId = c))
    { id := c, totalRevenue := (g.map Row.sales).sum, orderCount := g.length,
      totalProfit := (g.map Row.profit).sum,
      totalQuantity := (g.map Row.quantity).sum }

/-- The two frequency-segment labels. -/
inductive Segment where
  | highFrequency : Segment
  | standard : Segment
deriving DecidableEq, Repr, Inhabited

/-- pandas `Series.quantile(q)` with the default linear interpolation:
on the sorted values `s_0 ≤ ... ≤ s_(n-1)` return
`s_i + (h - i) * (s_(i+1) - s_i)` where `h = q * (n - 1)` and
`i = ⌊h⌋`. -/
def quantileLinear (q : ℚ) (xs : List ℚ) : ℚ :=
  let s := xs.insertionSort (· ≤ ·)
  let h : ℚ := q * ((xs.length : ℚ) - 1)
  let i : Nat := ⌊h⌋.toNat
  s.getD i 0 + (h - (i : ℚ)) * (s.getD (i + 1) 0 - s.getD i 0)

/-- `frequency_threshold` (line 255): the 80th percentile of
`Order_Count` over the full customer population. -/
def frequencyThreshold (rows : List Row) : ℚ :=
  quantileLinear (4 / 5) ((customerProfiles rows).map (fun p => (p.orderCount : ℚ)))

/-- A customer profile together with its assigned segment. -/
structure CustProfile extends CustomerAgg where
  segment : Segment
deriving DecidableEq, Repr, Inhabited

/-- The segment assignment (lines 256-258): the single dataset-wide
threshold is computed once, before any customer is classified; then
`'High Frequency' if x >= frequency_threshold else 'Standard'`. -/
def segmentedProfiles (rows : List Row) : List CustProfile :=
  let t := frequencyThreshold rows
  (customerProfiles rows).map fun p =>
    { toCustomerAgg := p,
      segment := if t ≤ (p.orderCount : ℚ) then Segment.highFrequency
                 else Segment.standard }

/-- One row of `segment_stats` (lines 261-271). -/
structure SegStat where
  segment : Segment
  customerCount : Nat
  revenue : ℚ
  profit : ℚ
  orders : Nat
  avgRevenuePerCustomer : PFloat
  revenueShare : PFloat
  marginPct : PFloat
deriving DecidableEq, Repr, Inhabited

/-- The groups of `customer_orders.groupby('Segment')`: pandas drops
empty groups and sorts the labels ('High Frequency' < 'Standard'). -/
def segGroups (rows : List Row) : List Segment :=
  [Segment.highFrequency, Segment.standard].filter
    (fun s => (segmentedProfiles rows).any (fun p => decide (p.segment = s)))

/-- Total revenue of one segment group. -/
def segRevenue (rows : List Row) (s : Segment) : ℚ :=
  (((segmentedProfiles rows).filter (fun p => decide (p.segment = s))).map
    (fun p => p.totalRevenue)).sum

/-- `segment_stats` (lines 261-271), including the derived
`Avg_Revenue_Per_Customer`, `Revenue_Share` (share of the revenue summed
across the present segments) and `Profit_Margin` columns. -/
def segmentStats (rows : List Row) : List SegStat :=
  let profs := segmentedProfiles rows
  let totalRev := ((segGroups rows).map (segRevenue rows)).sum
  (segGroups rows).map fun s =>
    let g := profs.filter (fun p => decide (p.segment = s))
    let rev := (g.map (fun p => p.totalRevenue)).sum
    let prof := (g.map (fun p => p.totalProfit)).sum
    { segment := s, customerCount := g.length, revenue := rev, profit := prof,
      orders := (g.map (fun p => p.orderCount)).sum,
      avgRevenuePerCustomer := PFloat.fin rev / PFloat.fin (g.length : ℚ),
      revenueShare := (PFloat.fin rev / PFloat.fin totalRev) * PFloat.fin 100,
      marginPct := (PFloat.fin prof / PFloat.fin rev) * PFloat.fin 100 }

/-! ### Elasticity Estimator (`analyze_customer_segments`, part 2) -/

/-- One row of `daily_product` (lines 283-289): per-(date, category)
sums and the derived `Avg_Price = Sales_Amount / Quantity`, computed by
pandas for EVERY row — a zero-quantity row gets `NaN` (zero sales) or a
signed infinity (nonzero sales), not an exception. -/
structure DayCatStat where
  date : Nat
  category : Nat
  sales : ℚ
  quantity : ℚ
  profit : ℚ
  avgPrice : PFloat
deriving DecidableEq, Repr, Inhabited

/-- Lexicographic order on the (date, category) group keys. -/
def pairLe (a b : Nat × Nat) : Prop := a.1 < b.1 ∨ (a.1 = b.1 ∧ a.2 ≤ b.2)

instance : DecidableRel pairLe := fun a b => by unfold pairLe; infer_instance

instance : IsTotal (Nat × Nat) pairLe := ⟨fun a b => by unfold pairLe; omega⟩

instance : IsTrans (Nat × Nat) pairLe :=
  ⟨fun a b c h1 h2 => by unfold pairLe at h1 h2 ⊢; omega⟩

/-- The distinct (date, category) pairs, in the lexicographic order of
the pandas group keys. -/
def pairKeys (rows : List Row) : List (Nat × Nat) :=
  ((rows.map (fun r => (r.date, r.category))).dedup).insertionSort pairLe

/-- `daily_product` (lines 283-289). -/
def dailyProduct (rows : List Row) : List DayCatStat :=
  (pairKeys rows).map fun k =>
    let g := rows.filter (fun r => decide (r.date = k.1) && decide (r.category = k.2))
    let s := (g.map Row.sales).sum
    let q := (g.map Row.quantity).sum
    { date := k.1, category := k.2, sales := s, quantity := q,
      profit := (g.map Row.profit).sum,
      avgPrice := PFloat.fin s / PFloat.fin q }

/-- `cat_data` (line 296): the daily points of one category. -/
def catPoints (c : Nat) (rows : List Row) : List DayCatStat :=
  (dailyProduct rows).filter (fun p => decide (p.category = c))

/-- The points of a category that actually enter
`cat_data['Avg_Price'].corr(cat_data['Quantity'])` (line 298): pandas
`corr` drops only the pairs with a `NaN` entry (`Quantity` is never
`NaN` here); infinite `Avg_Price` values are retained. -/
def retainedPoints (c : Nat) (rows : List Row) : List DayCatStat :=
  (catPoints c rows).filter (fun p => !p.avgPrice.isNaN)

/-- The (price, volume) pairs the correlation is computed over. -/
def corrInputPairs (c : Nat) (rows : List Row) : List (PFloat × ℚ) :=
  (retainedPoints c rows).map (fun p => (p.avgPrice, p.quantity))

/-- The categories for which a correlation is computed at all: those
with more than 10 daily points (line 297). -/
def elasticityCategories (rows : List Row) : List Nat :=
  (keysOf Row.category rows).filter (fun c => decide (10 < (catPoints c rows).length))

/-! ### Insight Generator (`generate_pm_insights`) -/

/-- The kinds of findings the spec's Insight structure distinguishes
(§4.4); `noRegionalVariance` is the insight the spec requires for a
single-region input.  Which kinds the CODE emits is `emittedKinds`
below. -/
inductive InsightKind where
  | regionUplift : InsightKind
  | rootCause : InsightKind
  | opportunity : InsightKind
  | recommendedActions : InsightKind
  | businessHealth : InsightKind
  | segmentComparison : InsightKind
  | genericCustomerInsight : InsightKind
  | featureProposal : InsightKind
  | noRegionalVariance : InsightKind
deriving DecidableEq, Repr, Inhabited

/-- The structured payload of `generate_pm_insights` (lines 424-534). -/
structure InsightReport where
  weakest : KeyStat
  strongest : KeyStat
  worstCategory : KeyStat
  potentialImprovement : PFloat
  upliftPct : PFloat
  insightKinds : List InsightKind
deriving DecidableEq, Repr, Inhabited

/-- pandas `Series.idxmin` over the margin column: skip `NaN` entries,
return the first row attaining the minimum; `none` models the
`ValueError` pandas raises when every entry is `NaN` (or the frame is
empty).  `idxminStep` is one fold step of that scan. -/
def idxminStep (acc : Option KeyStat) (c : KeyStat) : Option KeyStat :=
  if c.margin.isNaN then acc
  else match acc with
    | none => some c
    | some b => if PFloat.lt c.margin b.margin then some c else acc

@[inherit_doc idxminStep]
def idxminMargin (cats : List KeyStat) : Option KeyStat :=
  cats.foldl idxminStep none

/-- The key order of `sort_values('Profit_Margin')` on the regional
frame: ascending margin with `NaN` margins last. -/
def marginLe (a b : KeyStat) : Prop := PFloat.sortLe a.margin b.margin = true

instance : DecidableRel marginLe := fun a b => by unfold marginLe; infer_instance

instance : IsTotal KeyStat marginLe :=
  ⟨fun a b => by
    have h := PFloat.sortLe_total a.margin b.margin
    simp only [Bool.or_eq_true] at h
    exact h⟩

instance : IsTrans KeyStat marginLe :=
  ⟨fun a b c h1 h2 => PFloat.sortLe_trans _ _ _ h1 h2⟩

/-- `regional_margins.sort_values('Profit_Margin')` (line 438):
ascending margin, `NaN` margins last. -/
def sortedMargins (rows : List Row) : List KeyStat :=
  (regionalMargins rows).insertionSort marginLe

/-- The findings the code actually emits, in order (lines 459-533): the
print flow is unconditional except for the customer-segment block,
which compares the two segments only when both exist (line 504) and
emits a generic insight otherwise.  No branch of the function emits a
"no regional variance" finding. -/
def emittedKinds (rows : List Row) : List InsightKind :=
  [InsightKind.regionUplift, InsightKind.rootCause, InsightKind.opportunity,
   InsightKind.recommendedActions, InsightKind.businessHealth] ++
  (if 2 ≤ (segmentStats rows).length then [InsightKind.segmentComparison]
   else [InsightKind.genericCustomerInsight]) ++
  [InsightKind.featureProposal]

/-- `generate_pm_insights` (lines 424-534): rank regions by margin
ascending (weakest = `iloc[0]`, strongest = `iloc[-1]`; raises on an
empty frame, hence `none`), find the minimum-margin category inside the
weakest region (`idxmin`, raises when all margins are `NaN`), and
compute `potential_improvement = weakest_sales * ((strongest_margin -
weakest_margin) / 100)` (line 470) and the headline uplift percentage
(line 475). -/
def generatePmInsights (rows : List Row) : Option InsightReport :=
  match sortedMargins rows with
  | [] => none
  | w :: rest =>
    let s := (w :: rest).getLast (List.cons_ne_nil w rest)
    let cats := categoryMargins (rows.filter (fun r => decide (r.region = w.key)))
    match idxminMargin cats with
    | none => none
    | some wc =>
      some { weakest := w, strongest := s, worstCategory := wc,
             potentialImprovement :=
               PFloat.fin w.sales * ((s.margin - w.margin) / PFloat.fin 100),
             upliftPct :=
               (PFloat.fin w.sales * ((s.margin - w.margin) / PFloat.fin 100)
                 / PFloat.fin ((regionalMargins rows).map KeyStat.profit).sum)
                 * PFloat.fin 100,
             insightKinds := emittedKinds rows }

/-! ### Concrete datasets used by the witnesses and counterexamples -/

/-- The spec's two-region example: region A (`0`) with sales 1000 and a
10% margin, region B (`1`) with sales 2000 and a 20% margin. -/
def exAB : List Row :=
  [{ date := 20240101, region := 0, category := 0, customerId := 0,
     sales := 1000, profit := 100, quantity := 1 },
   { date := 20240101, region := 1, category := 0, customerId := 1,
     sales := 2000, profit := 400, quantity := 1 }]

/-- Two months, the first with zero total sales: January sells nothing,
February sells 100. -/
def exZeroMonth : List Row :=
  [{ date := 20240115, region := 0, category := 0, customerId := 0,
     sales := 0, profit := 0, quantity := 1 },
   { date := 20240215, region := 0, category := 0, customerId := 1,
     sales := 100, profit := 10, quantity := 1 }]

/-- Category 7 with eleven ordinary daily points and one point (date 12)
with zero total quantity but positive sales. -/
def exZeroQty : List Row :=
  (List.range 11).map (fun i =>
    { date := 20240101 + i, region := 0, category := 7, customerId := i,
      sales := 10, profit := 1, quantity := 1 }) ++
  [{ date := 20240112, region := 0, category := 7, customerId := 11,
     sales := 200, profit := 1, quantity := 0 }]

/-- One raw record with `sales_amount = 200` and a missing profit. -/
def exMissingProfit : List RawRecord :=
  [{ date := some 20240101, region := some 0, category := some 0,
     customerId := 1, sales := some 200, profit := none, quantity := 1 }]

/-- A single-region dataset whose region total sales are zero (one
record, sales 0, profit 5). -/
def exSingleRegionZeroSales : List Row :=
  [{ date := 20240101, region := 3, category := 1, customerId := 1,
     sales := 0, profit := 5, quantity := 1 }]

/-- A healthy single-region dataset. -/
def exSingleRegion : List Row :=
  [{ date := 20240101, region := 3, category := 1, customerId := 1,
     sales := 100, profit := 20, quantity := 1 }]

/-- Two regions, both with zero total sales and opposite-sign profits:
their margins are the two signed infinities. -/
def exInfMargins : List Row :=
  [{ date := 20240101, region := 0, category := 0, customerId := 0,
     sales := 0, profit := -1, quantity := 1 },
   { date := 20240101, region := 1, category := 0, customerId := 1,
     sales := 0, profit := 1, quantity := 1 }]

/-- Five customers with order counts `[1, 1, 1, 1, 2]`. -/
def exFiveCustomers : List Row :=
  (List.range 5).map (fun i =>
    { date := 20240101 + i, region := 0, category := 0, customerId := i,
      sales := 10, profit := 1, quantity := 1 }) ++
  [{ date := 20240110, region := 0, category := 0, customerId := 4,
     sales := 30, profit := 3, quantity := 1 }]

/-- Two regions, one healthy (sales 1000, margin 10%) and one with zero
total sales and zero profit, whose margin is `NaN`. -/
def exNaNMargin : List Row :=
  [{ date := 20240101, region := 0, category := 0, customerId := 0,
     sales := 1000, profit := 100, quantity := 1 },
   { date := 20240101, region := 1, category := 0, customerId := 1,
     sales := 0, profit := 0, quantity := 1 }]

/-- A one-month dataset unrelated to `exAB` (for the CAC
hyperproperty). -/
def exOtherMonth : List Row :=
  [{ date := 20231203, region := 9, category := 4, customerId := 77,
     sales := 55, profit := 5, quantity := 2 }]

/-! ### Helper lemmas -/

/-- Every customer profile carries one of the two labels. -/
theorem segment_two_valued (p : CustProfile) :
    p.segment = Segment.highFrequency ∨ p.segment = Segment.standard := by
  cases p.segment
  · exact Or.inl rfl
  · exact Or.inr rfl

/-- The customer counts of the present segment groups sum to the number
of profiles. -/
theorem seg_count_partition (profs : List CustProfile) :
    (([Segment.highFrequency, Segment.standard].filter
        (fun s => profs.any (fun p => decide (p.segment = s)))).map
      (fun s => (profs.filter (fun p => decide (p.segment = s))).length)).sum
    = profs.length := by
  have hnot : profs.filter (fun p => !(decide (p.segment = Segment.highFrequency)))
      = profs.filter (fun p => decide (p.segment = Segment.standard)) := by
    apply List.filter_congr
    intro p _
    cases hps : p.segment <;> simp [hps]
  have hsplit : profs.length
      = (profs.filter (fun p => decide (p.segment = Segment.highFrequency))).length
        + (profs.filter (fun p => decide (p.segment = Segment.standard))).length := by
    rw [← hnot]
    exact List.length_eq_length_filter_add _
  by_cases h1 : profs.any (fun p => decide (p.segment = Segment.highFrequency)) = true
  · by_cases h2 : profs.any (fun p => decide (p.segment = Segment.standard)) = true
    · have e : [Segment.highFrequency, Segment.standard].filter
          (fun s => profs.any (fun p => decide (p.segment = s)))
          = [Segment.highFrequency, Segment.standard] := by
        simp [List.filter_cons, h1, h2]
      rw [e, List.map_cons, List.map_cons, List.map_nil, List.sum_cons, List.sum_cons,
          List.sum_nil, add_zero, ← hsplit]
    · have hstd : profs.filter (fun p => decide (p.segment = Segment.standard)) = [] := by
        rw [List.filter_eq_nil_iff]
        intro p hp hc
        exact h2 (List.any_eq_true.2 ⟨p, hp, hc⟩)
      have e : [Segment.highFrequency, Segment.standard].filter
          (fun s => profs.any (fun p => decide (p.segment = s)))
          = [Segment.highFrequency] := by
        simp [List.filter_cons, h1, h2]
      rw [e, List.map_cons, List.map_nil, List.sum_cons, List.sum_nil, add_zero,
          hsplit, hstd, List.length_nil, add_zero]
  · have hhf : profs.filter (fun p => decide (p.segment = Segment.highFrequency)) = [] := by
      rw [List.filter_eq_nil_iff]
      intro p hp hc
      exact h1 (List.any_eq_true.2 ⟨p, hp, hc⟩)
    by_cases h2 : profs.any (fun p => decide (p.segment = Segment.standard)) = true
    · have e : [Segment.highFrequency, Segment.standard].filter
          (fun s => profs.any (fun p => decide (p.segment = s)))
          = [Segment.standard] := by
        simp [List.filter_cons, h1, h2]
      rw [e, List.map_cons, List.map_nil, List.sum_cons, List.sum_nil, add_zero,
          hsplit, hhf, List.length_nil, zero_add]
    · have hempty : profs = [] := by
        cases hps : profs with
        | nil => rfl
        | cons p rest =>
          exfalso
          rcases segment_two_valued p with hseg | hseg
          · refine h1 (List.any_eq_true.2 ⟨p, ?_, by simp [hseg]⟩)
            rw [hps]
            exact List.mem_cons_self p rest
          · refine h2 (List.any_eq_true.2 ⟨p, ?_, by simp [hseg]⟩)
            rw [hps]
            exact List.mem_cons_self p rest
      subst hempty
      simp

/-! ### C9 -/

/-- C9: every distinct customer receives exactly one of the two labels
'High Frequency' / 'Standard'; consequently `segment_stats` has at most
two rows and their `Customer_Count` values sum to the number of distinct
customers of the dataset. -/
theorem c9_segment_partition (rows : List Row) :
    (∀ p ∈ segmentedProfiles rows,
        p.segment = Segment.highFrequency ∨ p.segment = Segment.standard) ∧
    (segmentStats rows).length ≤ 2 ∧
    ((segmentStats rows).map SegStat.customerCount).sum
      = ((rows.map Row.customerId).dedup).length := by
  refine ⟨fun p _ => segment_two_valued p, ?_, ?_⟩
  · have h1 : (segmentStats rows).length = (segGroups rows).length := by
      simp [segmentStats]
    have h2 : (segGroups rows).length ≤ 2 :=
      le_trans (List.length_filter_le _ _) (by simp)
    omega
  · have hlen : (segmentedProfiles rows).length
        = ((rows.map Row.customerId).dedup).length := by
      simp [segmentedProfiles, customerProfiles, keysOf]
    calc ((segmentStats rows).map SegStat.customerCount).sum
        = (([Segment.highFrequency, Segment.standard].filter
            (fun s => (segmentedProfiles rows).any (fun p => decide (p.segment = s)))).map
            (fun s => ((segmentedProfiles rows).filter
              (fun p => decide (p.segment = s))).length)).sum := by
          simp [segmentStats, segGroups, List.map_map]
          rfl
      _ = (segmentedProfiles rows).length := seg_count_partition _
      _ = ((rows.map Row.customerId).dedup).length := hlen

/-! ### C2 -/

/-- C2: for a non-empty dataset a single threshold — the
linear-interpolation 80th percentile of `Order_Count` over the full
customer population — is computed before any classification
(`frequencyThreshold` is a constant of the `segmentedProfiles` map), and
a customer is labelled HighFrequency iff `order_count >= threshold`
(ties at the threshold are HighFrequency). -/
theorem c2_threshold_classification (rows : List Row) (_hne : rows ≠ []) :
    frequencyThreshold rows
      = quantileLinear (4 / 5) ((customerProfiles rows).map (fun p => (p.orderCount : ℚ)))
    ∧ ∀ p ∈ segmentedProfiles rows,
        (p.segment = Segment.highFrequency ↔
          frequencyThreshold rows ≤ (p.orderCount : ℚ)) := by
  refine ⟨rfl, fun p hp => ?_⟩
  rcases List.mem_map.1 hp with ⟨q, _, rfl⟩
  by_cases h : frequencyThreshold rows ≤ (q.orderCount : ℚ)
  · simp [h]
  · simp [h]

/-- Witness for C2 at the concrete two-region dataset. -/
theorem c2_witness :
    exAB ≠ [] ∧
    (frequencyThreshold exAB
      = quantileLinear (4 / 5) ((customerProfiles exAB).map (fun p => (p.orderCount : ℚ)))
    ∧ ∀ p ∈ segmentedProfiles exAB,
        (p.segment = Segment.highFrequency ↔
          frequencyThreshold exAB ≤ (p.orderCount : ℚ))) :=
  ⟨by decide,
   c2_threshold_classification exAB (by decide)⟩

/-! ### C10 -/

/-- The improvement figure in terms of the head and last element of the
CAC series. -/
theorem cacImprovement_eq (rows : List Row) (h : cacSeries rows ≠ []) :
    cacImprovement rows
      = some (((cacSeries rows).headD 0 - (cacSeries rows).getLastD 0)
          / (cacSeries rows).headD 0 * 100) := by
  cases e : cacSeries rows with
  | nil => exact absurd e h
  | cons c rest =>
    simp only [cacImprovement, e, List.headD_cons]
    rw [List.getLastD_eq_getLast?, List.getLast?_eq_getLast (c :: rest) (List.cons_ne_nil c rest)]
    rfl

/-- C10: the synthetic CAC series is a pure function of the number of
distinct months `m` — any two datasets with the same `m` get the
identical series `150 * 0.98^i` — and the CAC improvement equals
`100 * (1 - 0.98^(m-1))` whenever `m ≥ 1`.  No sales, profit, quantity
or customer value enters. -/
theorem c10_cac_hyperproperty (d1 d2 : List Row)
    (hm : monthCount d1 = monthCount d2) (h1 : 1 ≤ monthCount d1) :
    cacSeries d1 = cacSeries d2 ∧
    cacImprovement d1 = some (100 * (1 - (49 / 50 : ℚ) ^ (monthCount d1 - 1))) := by
  constructor
  · unfold cacSeries
    rw [hm]
  · obtain ⟨k, hk⟩ : ∃ k, monthCount d1 = k + 1 := ⟨monthCount d1 - 1, by omega⟩
    have hne : cacSeries d1 ≠ [] := by
      unfold cacSeries
      rw [hk]
      simp
    have hhead : (cacSeries d1).headD 0 = 150 := by
      unfold cacSeries
      rw [hk, List.range_succ_eq_map]
      simp
    have hlast : (cacSeries d1).getLastD 0 = 150 * (49 / 50 : ℚ) ^ k := by
      unfold cacSeries
      rw [hk, List.range_succ, List.map_append]
      simp
    rw [cacImprovement_eq d1 hne, hhead, hlast, hk]
    norm_num
    ring

/-- Witness for C10: two unrelated one-month datasets share the CAC
series `[150]` and a CAC improvement of `100 * (1 - 0.98^0) = 0`. -/
theorem c10_witness :
    monthCount exAB = monthCount exOtherMonth ∧ 1 ≤ monthCount exAB ∧
    (cacSeries exAB = cacSeries exOtherMonth ∧
     cacImprovement exAB
       = some (100 * (1 - (49 / 50 : ℚ) ^ (monthCount exAB - 1)))) :=
  ⟨by decide, by decide,
   c10_cac_hyperproperty exAB exOtherMonth (by decide)
     (by decide)⟩

/-! ### C7 -/

/-- Every non-empty list of rationals has a maximal element. -/
theorem exists_list_max (l : List ℚ) (h : l ≠ []) : ∃ m ∈ l, ∀ x ∈ l, x ≤ m := by
  induction l with
  | nil => exact absurd rfl h
  | cons a t ih =>
    cases t with
    | nil => exact ⟨a, by simp⟩
    | cons b u =>
      obtain ⟨m, hm, hall⟩ := ih (by simp)
      by_cases hc : a ≤ m
      · refine ⟨m, List.mem_cons_of_mem a hm, ?_⟩
        intro x hx
        rcases List.mem_cons.1 hx with rfl | hx
        · exact hc
        · exact hall x hx
      · refine ⟨a, List.mem_cons_self a _, ?_⟩
        intro x hx
        rcases List.mem_cons.1 hx with rfl | hx
        · exact le_refl x
        · exact le_trans (hall x hx) (le_of_not_le hc)

/-- The linear-interpolation quantile of a non-empty list never exceeds
an upper bound of the list: the interpolated value is a convex
combination of two list entries. -/
theorem quantileLinear_le_max (q : ℚ) (xs : List ℚ) (hq0 : 0 ≤ q) (hq1 : q ≤ 1)
    (hne : xs ≠ []) (M : ℚ) (hM : ∀ x ∈ xs, x ≤ M) :
    quantileLinear q xs ≤ M := by
  unfold quantileLinear
  dsimp only
  have hn1 : 1 ≤ xs.length := List.length_pos.2 hne
  have hslen : (xs.insertionSort (· ≤ ·)).length = xs.length :=
    List.length_insertionSort _ _
  have hmem : ∀ j, j < xs.length → (xs.insertionSort (· ≤ ·)).getD j 0 ≤ M := by
    intro j hj
    rw [List.getD_eq_getElem _ _ (by omega)]
    exact hM _ (List.mem_insertionSort (· ≤ ·) |>.1 (List.getElem_mem _))
  set h : ℚ := q * ((xs.length : ℚ) - 1) with hdefh
  have hh0 : 0 ≤ h := by
    apply mul_nonneg hq0
    have : (1 : ℚ) ≤ (xs.length : ℚ) := by exact_mod_cast hn1
    linarith
  have hhn : h ≤ (xs.length : ℚ) - 1 := by
    have h1 : (1 : ℚ) ≤ (xs.length : ℚ) := by exact_mod_cast hn1
    calc h = q * ((xs.length : ℚ) - 1) := hdefh
      _ ≤ 1 * ((xs.length : ℚ) - 1) := by
          apply mul_le_mul_of_nonneg_right hq1
          linarith
      _ = (xs.length : ℚ) - 1 := one_mul _
  set i : Nat := ⌊h⌋.toNat with hdefi
  have hfl0 : (0 : ℤ) ≤ ⌊h⌋ := Int.floor_nonneg.2 hh0
  have hicast : (i : ℚ) = ((⌊h⌋ : ℤ) : ℚ) := by
    rw [hdefi]
    exact_mod_cast congrArg (fun z => ((z : ℤ) : ℚ)) (Int.toNat_of_nonneg hfl0)
  have hile : (i : ℚ) ≤ h := by
    rw [hicast]
    exact Int.floor_le h
  have hlti : h < (i : ℚ) + 1 := by
    rw [hicast]
    exact_mod_cast Int.lt_floor_add_one h
  have hin : i < xs.length := by
    have : (i : ℚ) ≤ (xs.length : ℚ) - 1 := le_trans hile hhn
    have : (i : ℚ) < (xs.length : ℚ) := by linarith
    exact_mod_cast this
  have hf0 : 0 ≤ h - (i : ℚ) := by linarith
  have hf1 : h - (i : ℚ) ≤ 1 := by linarith
  by_cases hcase : i + 1 < xs.length
  · have ha := hmem i hin
    have hb := hmem (i + 1) hcase
    set a := (xs.insertionSort (· ≤ ·)).getD i 0
    set b := (xs.insertionSort (· ≤ ·)).getD (i + 1) 0
    nlinarith [mul_nonneg (sub_nonneg.2 hf1) (sub_nonneg.2 ha),
               mul_nonneg hf0 (sub_nonneg.2 hb)]
  · have hieq : i = xs.length - 1 := by omega
    have hfeq : h - (i : ℚ) = 0 := by
      have : ((xs.length : ℚ) - 1) ≤ (i : ℚ) := by
        have : ((xs.length - 1 : Nat) : ℚ) = (xs.length : ℚ) - 1 := by
          have : (1 : ℚ) ≤ (xs.length : ℚ) := by exact_mod_cast hn1
          push_cast [Nat.cast_sub hn1]
          ring
        rw [hieq, this]
      linarith
    rw [hfeq, zero_mul, add_zero]
    exact hmem i hin

/-- C7: with at least five customers (indeed with at least one) and
non-uniform order counts, the HighFrequency segment is non-empty: the
80th-percentile threshold never exceeds the maximal order count, so the
most frequent customer is classified HighFrequency. -/
theorem c7_highFrequency_nonempty (rows : List Row)
    (h5 : 5 ≤ (customerProfiles rows).length)
    (_hnonuniform : ∃ p ∈ customerProfiles rows, ∃ q ∈ customerProfiles rows,
        p.orderCount ≠ q.orderCount) :
    ∃ p ∈ segmentedProfiles rows, p.segment = Segment.highFrequency := by
  have hne : (customerProfiles rows).map (fun p => (p.orderCount : ℚ)) ≠ [] := by
    intro hcon
    have h0 : customerProfiles rows = [] := by simpa using hcon
    rw [h0] at h5
    simp at h5
  obtain ⟨m, hm, hmax⟩ := exists_list_max _ hne
  obtain ⟨p, hp, hpm⟩ := List.mem_map.1 hm
  have hthr : frequencyThreshold rows ≤ (p.orderCount : ℚ) := by
    rw [hpm]
    exact quantileLinear_le_max (4 / 5) _ (by norm_num) (by norm_num) hne m hmax
  refine ⟨{ toCustomerAgg := p,
            segment := if frequencyThreshold rows ≤ (p.orderCount : ℚ)
                       then Segment.highFrequency else Segment.standard },
          List.mem_map_of_mem _ hp, ?_⟩
  simp [hthr]

/-- Witness for C7: five customers with order counts `[1,1,1,1,2]`; the
threshold is `1.2` and customer `4` is HighFrequency. -/
theorem c7_witness :
    5 ≤ (customerProfiles exFiveCustomers).length ∧
    (∃ p ∈ customerProfiles exFiveCustomers, ∃ q ∈ customerProfiles exFiveCustomers,
        p.orderCount ≠ q.orderCount) ∧
    ∃ p ∈ segmentedProfiles exFiveCustomers, p.segment = Segment.highFrequency :=
  ⟨by decide, by decide,
   c7_highFrequency_nonempty exFiveCustomers (by decide)
     (by decide)⟩

/-! ### C5 -/

/-- A record with a present sales amount is unchanged by the sales
fill. -/
theorem fillSalesRow_of_some (raws : List RawRecord) (r : RawRecord) (s : ℚ)
    (hs : r.sales = some s) : fillSalesRow raws r = r := by
  unfold fillSalesRow
  rw [hs]

/-- A record with a present sales amount survives the (guarded) sales
fill unchanged. -/
theorem mem_fillSalesList (raws : List RawRecord) (r : RawRecord) (s : ℚ)
    (hr : r ∈ raws) (hs : r.sales = some s) : r ∈ fillSalesList raws := by
  unfold fillSalesList
  split
  · have := List.mem_map_of_mem (fillSalesRow raws) hr
    rwa [fillSalesRow_of_some raws r s hs] at this
  · exact hr

/-- The profit fill on a record with missing profit and present sales:
exactly 30% of the sales amount. -/
theorem fillProfitRow_of_none (r : RawRecord) (s : ℚ)
    (hp : r.profit = none) (hs : r.sales = some s) :
    fillProfitRow r = { r with profit := some (s * (3 / 10)) } := by
  unfold fillProfitRow
  rw [hp, hs]
  rfl

/-- C5 (amended): a record with a missing profit and sales amount `s` is
imputed `profit = s * 0.30` exactly, the imputed record reaches the
cleaned output, and the imputed value is included in the downstream
profit sum (`df['Profit'].sum()` decomposes around it).  The code
reports no per-record DataQualityWarning with amount and method — see
the counterexample on the console messages. -/
theorem c5_imputation (raws : List RawRecord) (r : RawRecord) (s : ℚ)
    (hr : r ∈ raws) (hp : r.profit = none) (hs : r.sales = some s)
    (hd : r.date.isSome) (hreg : r.region.isSome) (hc : r.category.isSome) :
    { r with profit := some (s * (3 / 10)) } ∈ loadAndClean raws ∧
    ∃ l1 l2, loadAndClean raws = l1 ++ { r with profit := some (s * (3 / 10)) } :: l2 ∧
      totalProfit (loadAndClean raws)
        = totalProfit l1 + s * (3 / 10) + totalProfit l2 := by
  have h1 : r ∈ fillSalesList raws := mem_fillSalesList raws r s hr hs
  have h2 : { r with profit := some (s * (3 / 10)) } ∈ fillProfitList (fillSalesList raws) := by
    unfold fillProfitList
    have hguard : (fillSalesList raws).any (fun x => x.profit.isNone) = true :=
      List.any_eq_true.2 ⟨r, h1, by rw [hp]; rfl⟩
    rw [if_pos hguard]
    have := List.mem_map_of_mem fillProfitRow h1
    rwa [fillProfitRow_of_none r s hp hs] at this
  have hmem : { r with profit := some (s * (3 / 10)) } ∈ loadAndClean raws := by
    unfold loadAndClean
    refine List.mem_filter.2 ⟨h2, ?_⟩
    simp only []
    rw [show ({ r with profit := some (s * (3 / 10)) } : RawRecord).date = r.date from rfl]
    rw [show ({ r with profit := some (s * (3 / 10)) } : RawRecord).region = r.region from rfl]
    rw [show ({ r with profit := some (s * (3 / 10)) } : RawRecord).category = r.category from rfl]
    rw [hd, hreg, hc]
    rfl
  refine ⟨hmem, ?_⟩
  obtain ⟨l1, l2, hsplit⟩ := List.append_of_mem hmem
  refine ⟨l1, l2, hsplit, ?_⟩
  rw [hsplit]
  unfold totalProfit
  rw [List.filterMap_append, List.sum_append, List.filterMap_cons]
  simp only [List.sum_cons]
  ring

/-- Witness for C5 (amended) at the concrete record with
`sales_amount = 200`: the imputed profit is exactly 60. -/
theorem c5_witness :
    (∃ r, r ∈ exMissingProfit ∧ r.profit = none ∧ r.sales = some 200) ∧
    ({ date := some 20240101, region := some 0, category := some 0, customerId := 1,
       sales := some 200, profit := some ((200 : ℚ) * (3 / 10)), quantity := 1 }
        : RawRecord) ∈ loadAndClean exMissingProfit ∧
    (200 : ℚ) * (3 / 10) = 60 := by
  refine ⟨⟨{ date := some 20240101, region := some 0, category := some 0,
             customerId := 1, sales := some 200, profit := none, quantity := 1 },
           by decide, rfl, rfl⟩, ?_, by norm_num⟩
  exact (c5_imputation exMissingProfit
    { date := some 20240101, region := some 0, category := some 0,
      customerId := 1, sales := some 200, profit := none, quantity := 1 }
    200 (by decide) rfl rfl rfl rfl rfl).1

/-- Counterexample for C5 as stated: at the record with
`sales_amount = 200` and missing profit, the imputation does happen
(cleaned profit is 60), but the function's only caller-visible output is
the cleaned frame plus the fixed console lines, and no emitted line
contains the imputed amount ("60"), the method ("30"), or the word
stem "mput" (Imputed/imputed) — the imputation is not reported as a
DataQualityWarning with amount and method. -/
theorem c5_cex_no_warning :
    loadAndClean exMissingProfit
      = [{ date := some 20240101, region := some 0, category := some 0,
           customerId := 1, sales := some 200, profit := some 60, quantity := 1 }] ∧
    loadAndCleanMessages exMissingProfit
      = ["📊 Loading sales data...", "Initial dataset: 1 rows, 7 columns",
         "🧹 Cleaning data...", "Found 1 missing values",
         "✅ Clean dataset: 1 rows", "Date range: 20240101 to 20240101"] ∧
    (loadAndCleanMessages exMissingProfit).all
      (fun m => !(containsSub "60" m) && !(containsSub "30" m)
        && !(containsSub "mput" m)) = true := by
  refine ⟨?_, ?_, ?_⟩ <;> decide

/-! ### C4 -/

/-- C4 (amended): `Avg_Price` is computed by pandas for EVERY
(date, category) point, zero-quantity points included.  With
non-negative record sales, a zero-quantity point's `Avg_Price` is `NaN`
when its sales are zero — and only then is the point dropped from the
correlation's input pairs — while a zero-quantity point with positive
sales gets `+inf` and is RETAINED in the correlation input.  Nothing
raises (the pipeline is total). -/
theorem c4_zero_quantity (rows : List Row) (p : DayCatStat)
    (hmem : p ∈ dailyProduct rows) (hnn : ∀ r ∈ rows, 0 ≤ r.sales)
    (hq : p.quantity = 0) :
    0 ≤ p.sales ∧
    p.avgPrice = PFloat.fin p.sales / PFloat.fin p.quantity ∧
    (p.sales = 0 → p.avgPrice = PFloat.nan ∧ p ∉ retainedPoints p.category rows) ∧
    (0 < p.sales → p.avgPrice = PFloat.pinf ∧ p ∈ retainedPoints p.category rows) := by
  have hcat : p ∈ catPoints p.category rows := by
    unfold catPoints
    exact List.mem_filter.2 ⟨hmem, by simp⟩
  obtain ⟨k, hk, hpeq⟩ := List.mem_map.1 hmem
  have hsalesnn : 0 ≤ p.sales := by
    rw [← hpeq]
    dsimp only
    apply List.sum_nonneg
    intro x hx
    rcases List.mem_map.1 hx with ⟨rr, hrr, rfl⟩
    exact hnn rr (List.mem_filter.1 hrr).1
  have havg : p.avgPrice = PFloat.fin p.sales / PFloat.fin p.quantity := by
    rw [← hpeq]
  refine ⟨hsalesnn, havg, ?_, ?_⟩
  · intro hzero
    have hnan : p.avgPrice = PFloat.nan := by
      rw [havg, hzero, hq, PFloat.fin_div_fin_zero, if_pos rfl]
    refine ⟨hnan, ?_⟩
    intro hcon
    have hfalse := (List.mem_filter.1 hcon).2
    rw [hnan] at hfalse
    simp [PFloat.isNaN] at hfalse
  · intro hpos
    have hpinf : p.avgPrice = PFloat.pinf := by
      rw [havg, hq, PFloat.fin_div_fin_zero, if_neg (ne_of_gt hpos), if_pos hpos]
    refine ⟨hpinf, ?_⟩
    unfold retainedPoints
    refine List.mem_filter.2 ⟨hcat, ?_⟩
    rw [hpinf]
    rfl

/-- Witness for C4 (amended) at the zero-quantity, sales-200 point of
`exZeroQty`. -/
theorem c4_witness :
    ({ date := 20240112, category := 7, sales := 200, quantity := 0, profit := 1,
       avgPrice := PFloat.pinf } : DayCatStat) ∈ dailyProduct exZeroQty ∧
    (∀ r ∈ exZeroQty, 0 ≤ r.sales) ∧
    (({ date := 20240112, category := 7, sales := 200, quantity := 0, profit := 1,
        avgPrice := PFloat.pinf } : DayCatStat).quantity = 0) ∧
    (0 < ({ date := 20240112, category := 7, sales := 200, quantity := 0, profit := 1,
            avgPrice := PFloat.pinf } : DayCatStat).sales →
     ({ date := 20240112, category := 7, sales := 200, quantity := 0, profit := 1,
        avgPrice := PFloat.pinf } : DayCatStat).avgPrice = PFloat.pinf ∧
     ({ date := 20240112, category := 7, sales := 200, quantity := 0, profit := 1,
        avgPrice := PFloat.pinf } : DayCatStat) ∈ retainedPoints
          ({ date := 20240112, category := 7, sales := 200, quantity := 0, profit := 1,
             avgPrice := PFloat.pinf } : DayCatStat).category exZeroQty) :=
  ⟨by decide, by decide, rfl,
   (c4_zero_quantity exZeroQty
     { date := 20240112, category := 7, sales := 200, quantity := 0, profit := 1,
       avgPrice := PFloat.pinf }
     (by decide) (by decide) rfl).2.2.2⟩

/-- Counterexample for C4 as stated: in `exZeroQty` the category-7
correlation IS computed (12 > 10 daily points), the zero-quantity point
has a COMPUTED `Avg_Price` (`+inf`, so the average price is not derived
only where quantity > 0), and that point is NOT excluded from the
price/volume correlation input (`(+inf, 0)` is among the pairs). -/
theorem c4_cex_not_excluded :
    10 < (catPoints 7 exZeroQty).length ∧
    7 ∈ elasticityCategories exZeroQty ∧
    ((dailyProduct exZeroQty).filter (fun p => decide (p.quantity = 0))).map
        (fun p => p.avgPrice) = [PFloat.pinf] ∧
    (PFloat.pinf, (0 : ℚ)) ∈ corrInputPairs 7 exZeroQty := by
  refine ⟨?_, ?_, ?_, ?_⟩ <;> decide

/-! ### C3 -/

/-- The `i`-th `pct_change()*100` entry, explicitly. -/
theorem pctChange100_getD (xs : List ℚ) (i : Nat) (hi : i < xs.length) (d : PFloat) :
    (pctChange100 xs).getD i d
      = if i = 0 then PFloat.nan
        else (PFloat.fin (xs.getD i 0) / PFloat.fin (xs.getD (i - 1) 0)
                - PFloat.fin 1) * PFloat.fin 100 := by
  unfold pctChange100
  rw [List.getD_eq_getElem _ _ (by simpa using hi)]
  rw [List.getElem_map, List.getElem_range]

/-- C3 (amended): at a month whose previous month has zero total sales,
the growth entry is `NaN` when the current total is also zero — `NaN` is
the `None`-like marker, and the mean (`skipna`) excludes exactly the
`NaN` entries — but when the current total is positive the entry is
`+inf`, which is NOT `NaN` and therefore NOT excluded from the average
MRR growth.  No exception is raised and the entry is never rendered as
zero. -/
theorem c3_zero_denominator (rows : List Row) (i : Nat) (hi0 : 0 < i)
    (hilen : i < (monthlySales rows).length)
    (hprev : (monthlySales rows).getD (i - 1) 0 = 0) :
    ((monthlySales rows).getD i 0 = 0 →
        (mrrGrowth rows).getD i PFloat.nan = PFloat.nan) ∧
    (0 < (monthlySales rows).getD i 0 →
        (mrrGrowth rows).getD i PFloat.nan = PFloat.pinf
          ∧ PFloat.pinf.isNaN = false) ∧
    avgMrrGrowth rows
      = (if ((mrrGrowth rows).filter (fun x => !x.isNaN)).isEmpty then PFloat.nan
         else sumPF ((mrrGrowth rows).filter (fun x => !x.isNaN))
                / PFloat.fin ((((mrrGrowth rows).filter (fun x => !x.isNaN)).length : Nat) : ℚ)) := by
  have hbase : (mrrGrowth rows).getD i PFloat.nan
      = (PFloat.fin ((monthlySales rows).getD i 0)
          / PFloat.fin ((monthlySales rows).getD (i - 1) 0)
          - PFloat.fin 1) * PFloat.fin 100 := by
    unfold mrrGrowth
    rw [pctChange100_getD _ i hilen, if_neg (Nat.pos_iff_ne_zero.1 hi0)]
  refine ⟨?_, ?_, rfl⟩
  · intro hcur
    rw [hbase, hcur, hprev, PFloat.fin_div_fin_zero, if_pos rfl]
    rfl
  · intro hcur
    rw [hbase, hprev, PFloat.fin_div_fin_zero, if_neg (ne_of_gt hcur), if_pos hcur]
    refine ⟨?_, rfl⟩
    show PFloat.mul (PFloat.add PFloat.pinf (PFloat.neg (PFloat.fin 1))) (PFloat.fin 100)
      = PFloat.pinf
    norm_num [PFloat.add, PFloat.neg, PFloat.mul]

/-- Witness for C3 (amended) at the dataset whose first month sells
nothing: the February growth entry is `+inf`. -/
theorem c3_witness :
    0 < 1 ∧ 1 < (monthlySales exZeroMonth).length ∧
    (monthlySales exZeroMonth).getD 0 0 = 0 ∧
    0 < (monthlySales exZeroMonth).getD 1 0 ∧
    ((mrrGrowth exZeroMonth).getD 1 PFloat.nan = PFloat.pinf
      ∧ PFloat.pinf.isNaN = false) :=
  ⟨Nat.one_pos, by decide, by decide,
   by decide,
   (c3_zero_denominator exZeroMonth 1 Nat.one_pos (by decide)
     (by decide)).2.1 (by decide)⟩

/-- Counterexample for C3 as stated: in `exZeroMonth` the February
metric (previous-month revenue zero, current revenue 100) is `+inf` —
an ordinary comparable float, not a `None`-like undefined marker — and
it is NOT excluded from the aggregate mean: the average MRR growth
evaluates to `+inf`, not to an undefined marker over the defined values
only. -/
theorem c3_cex_inf_in_mean :
    mrrGrowth exZeroMonth = [PFloat.nan, PFloat.pinf] ∧
    avgMrrGrowth exZeroMonth = PFloat.pinf ∧
    PFloat.pinf.isNaN = false ∧ PFloat.pinf ≠ PFloat.nan :=
  ⟨by decide, by decide, rfl, by decide⟩

/-! ### Helper lemmas for the Insight Generator -/

/-- Pointwise sum of two mapped families. -/
theorem sum_map_add (u v : Nat → ℚ) (ks : List Nat) :
    (ks.map (fun k => u k + v k)).sum = (ks.map u).sum + (ks.map v).sum := by
  induction ks with
  | nil => simp
  | cons k t ih =>
    simp only [List.map_cons, List.sum_cons, ih]
    ring

/-- Summing an indicator over a duplicate-free list containing the index
picks out the value. -/
theorem sum_ite_mem (a : Nat) (c : ℚ) (ks : List Nat)
    (hnd : ks.Nodup) (ha : a ∈ ks) :
    (ks.map (fun k => if a = k then c else 0)).sum = c := by
  induction ks with
  | nil => exact absurd ha (List.not_mem_nil a)
  | cons k t ih =>
    rcases List.mem_cons.1 ha with rfl | hat
    · simp only [List.map_cons, List.sum_cons]
      rw [if_pos trivial]
      have hzero : (t.map (fun j => if a = j then c else 0)).sum = 0 := by
        apply List.sum_eq_zero
        intro x hx
        rcases List.mem_map.1 hx with ⟨j, hj, rfl⟩
        rw [if_neg]
        intro hc
        exact (List.nodup_cons.1 hnd).1 (hc ▸ hj)
      rw [hzero, add_zero]
    · have hak : a ≠ k := by
        intro hc
        exact (List.nodup_cons.1 hnd).1 (hc ▸ hat)
      simp only [List.map_cons, List.sum_cons, if_neg hak, zero_add]
      exact ih (List.nodup_cons.1 hnd).2 hat

/-- Grouping rows by any duplicate-free covering key list partitions the
sum of any numeric column. -/
theorem sum_filter_partition (f : Row → Nat) (g : Row → ℚ) (rows : List Row)
    (ks : List Nat) (hnd : ks.Nodup) (hcover : ∀ r ∈ rows, f r ∈ ks) :
    (ks.map (fun k => ((rows.filter (fun r => decide (f r = k))).map g).sum)).sum
      = (rows.map g).sum := by
  induction rows with
  | nil => simp
  | cons r rest ih =>
    have hstep : ∀ k : Nat,
        (((r :: rest).filter (fun x => decide (f x = k))).map g).sum
          = (if f r = k then g r else 0)
            + ((rest.filter (fun x => decide (f x = k))).map g).sum := by
      intro k
      by_cases hk : f r = k
      · rw [List.filter_cons_of_pos (by simpa using hk), if_pos hk]
        simp
      · rw [List.filter_cons_of_neg (by simpa using hk), if_neg hk]
        simp
    calc (ks.map (fun k => (((r :: rest).filter (fun x => decide (f x = k))).map g).sum)).sum
        = (ks.map (fun k => (if f r = k then g r else 0)
            + ((rest.filter (fun x => decide (f x = k))).map g).sum)).sum := by
          congr 1
          exact List.map_congr_left (fun k _ => hstep k)
      _ = (ks.map (fun k => if f r = k then g r else 0)).sum
            + (ks.map (fun k => ((rest.filter (fun x => decide (f x = k))).map g).sum)).sum :=
          sum_map_add _ _ ks
      _ = g r + (rest.map g).sum := by
          rw [sum_ite_mem (f r) (g r) ks hnd (hcover r (List.mem_cons_self r rest)),
              ih (fun x hx => hcover x (List.mem_cons_of_mem r hx))]
      _ = ((r :: rest).map g).sum := by simp

/-- The group keys are duplicate-free. -/
theorem keysOf_nodup (f : Row → Nat) (rows : List Row) : (keysOf f rows).Nodup :=
  ((List.perm_insertionSort (· ≤ ·) _).nodup_iff).2 (List.nodup_dedup _)

/-- Every row's key appears among the group keys. -/
theorem mem_keysOf (f : Row → Nat) (rows : List Row) (r : Row) (hr : r ∈ rows) :
    f r ∈ keysOf f rows := by
  unfold keysOf
  rw [List.mem_insertionSort]
  exact List.mem_dedup.2 (List.mem_map_of_mem f hr)

/-- The per-group sums over the `groupby` keys add up to the whole
column's sum. -/
theorem sum_over_groups (f : Row → Nat) (g : Row → ℚ) (rows : List Row) :
    ((keysOf f rows).map
      (fun k => ((rows.filter (fun r => decide (f r = k))).map g).sum)).sum
      = (rows.map g).sum :=
  sum_filter_partition f g rows (keysOf f rows) (keysOf_nodup f rows)
    (fun r hr => mem_keysOf f rows r hr)

/-- In a `Pairwise R` list with `R` reflexive, every element is related
to the last element. -/
theorem pairwise_rel_getLast {α : Type} {R : α → α → Prop} (hrefl : ∀ a, R a a) :
    ∀ (l : List α) (hne : l ≠ []) (_h : l.Pairwise R) (x : α) (_hx : x ∈ l),
      R x (l.getLast hne)
  | [], hne, _, _, _ => absurd rfl hne
  | [a], _, _, x, hx => by
      rcases List.mem_singleton.1 hx with rfl
      exact hrefl x
  | a :: b :: u, _, h, x, hx => by
      rw [List.getLast_cons (List.cons_ne_nil b u)]
      rcases List.mem_cons.1 hx with rfl | hx2
      · exact (List.rel_of_pairwise_cons h) (List.getLast_mem (List.cons_ne_nil b u))
      · exact pairwise_rel_getLast hrefl (b :: u) (List.cons_ne_nil b u)
          (List.Pairwise.of_cons h) x hx2

/-- In a `Pairwise R` list with `R` reflexive, the head is related to
every element. -/
theorem pairwise_head_rel {α : Type} {R : α → α → Prop} (hrefl : ∀ a, R a a)
    (a : α) (t : List α) (h : (a :: t).Pairwise R) (x : α) (hx : x ∈ a :: t) :
    R a x := by
  rcases List.mem_cons.1 hx with rfl | hx2
  · exact hrefl x
  · exact (List.rel_of_pairwise_cons h) hx2

/-- One `idxmin` step keeps the accumulator present. -/
theorem idxminStep_some (acc : Option KeyStat) (c : KeyStat) (h : acc.isSome) :
    (idxminStep acc c).isSome := by
  unfold idxminStep
  split
  · exact h
  · cases acc with
    | none => simp at h
    | some b =>
      dsimp only
      split <;> rfl

/-- One `idxmin` step on a non-`NaN` entry produces a present
accumulator. -/
theorem idxminStep_of_notNaN (acc : Option KeyStat) (c : KeyStat)
    (h : c.margin.isNaN = false) : (idxminStep acc c).isSome := by
  unfold idxminStep
  rw [if_neg (by simp [h])]
  cases acc with
  | none => rfl
  | some b =>
    dsimp only
    split <;> rfl

/-- The `idxmin` fold yields a row as soon as the accumulator is present
or some entry has a non-`NaN` margin. -/
theorem idxmin_foldl_some (cats : List KeyStat) :
    ∀ acc : Option KeyStat,
      (acc.isSome ∨ ∃ c ∈ cats, c.margin.isNaN = false) →
      (cats.foldl idxminStep acc).isSome := by
  induction cats with
  | nil =>
    intro acc h
    rcases h with h | ⟨c, hc, _⟩
    · exact h
    · exact absurd hc (List.not_mem_nil c)
  | cons c t ih =>
    intro acc h
    rw [List.foldl_cons]
    rcases h with h | ⟨d, hd, hdnan⟩
    · exact ih _ (Or.inl (idxminStep_some acc c h))
    · rcases List.mem_cons.1 hd with rfl | hdt
      · exact ih _ (Or.inl (idxminStep_of_notNaN acc d hdnan))
      · by_cases hs : (idxminStep acc c).isSome = true
        · exact ih _ (Or.inl hs)
        · exact ih _ (Or.inr ⟨d, hdt, hdnan⟩)

/-- `idxmin` succeeds when some entry's margin is not `NaN` (pandas only
raises on an all-`NaN` column). -/
theorem idxminMargin_isSome (cats : List KeyStat) (c : KeyStat) (hc : c ∈ cats)
    (hnan : c.margin.isNaN = false) : (idxminMargin cats).isSome :=
  idxmin_foldl_some cats none (Or.inr ⟨c, hc, hnan⟩)

/-- Shape of every `regionalMargins`/`categoryMargins` row: the margin
column is `Profit / Sales * 100` under pandas division. -/
theorem margin_shape (f : Row → Nat) (rows : List Row) (r : KeyStat)
    (hr : r ∈ (keysOf f rows).map (mkKeyStat f rows)) :
    r.margin = (PFloat.fin r.profit / PFloat.fin r.sales) * PFloat.fin 100 ∧
    r.sales = ((rows.filter (fun x => decide (f x = r.key))).map Row.sales).sum := by
  rcases List.mem_map.1 hr with ⟨k, _, rfl⟩
  exact ⟨rfl, rfl⟩

/-- A margin with nonzero sales is the finite rational
`profit / sales * 100`. -/
theorem margin_fin_of_ne_zero (r : KeyStat)
    (hshape : r.margin = (PFloat.fin r.profit / PFloat.fin r.sales) * PFloat.fin 100)
    (hs : r.sales ≠ 0) : r.margin = PFloat.fin (r.profit / r.sales * 100) := by
  rw [hshape, PFloat.fin_div_fin _ _ hs, PFloat.fin_mul_fin]

/-- Evaluation of `generate_pm_insights` once the sorted regional frame
and the root-cause `idxmin` result are known. -/
theorem generatePmInsights_eq (rows : List Row) (w : KeyStat) (rest : List KeyStat)
    (hsort : sortedMargins rows = w :: rest) (wc : KeyStat)
    (hwc : idxminMargin (categoryMargins
        (rows.filter (fun r => decide (r.region = w.key)))) = some wc) :
    generatePmInsights rows = some
      { weakest := w,
        strongest := (w :: rest).getLast (List.cons_ne_nil w rest),
        worstCategory := wc,
        potentialImprovement :=
          PFloat.fin w.sales
            * ((((w :: rest).getLast (List.cons_ne_nil w rest)).margin - w.margin)
                / PFloat.fin 100),
        upliftPct :=
          (PFloat.fin w.sales
            * ((((w :: rest).getLast (List.cons_ne_nil w rest)).margin - w.margin)
                / PFloat.fin 100)
            / PFloat.fin ((regionalMargins rows).map KeyStat.profit).sum)
            * PFloat.fin 100,
        insightKinds := emittedKinds rows } := by
  unfold generatePmInsights
  simp only [hsort, hwc]

/-- Core behaviour of `generate_pm_insights` when every region has a
nonzero sales total (so every regional margin is a defined rational):
the function completes, the weakest/strongest rows are the
minimum/maximum-margin regions, and
`potential_improvement = weakest_sales * ((strongest_margin -
weakest_margin) / 100)` exactly. -/
theorem insight_core (rows : List Row)
    (hne : regionalMargins rows ≠ [])
    (hnz : ∀ r ∈ regionalMargins rows, r.sales ≠ 0) :
    ∃ rpt : InsightReport, generatePmInsights rows = some rpt ∧
      rpt.weakest ∈ regionalMargins rows ∧
      rpt.strongest ∈ regionalMargins rows ∧
      rpt.insightKinds = emittedKinds rows ∧
      rpt.weakest.sales
        = ((rows.filter (fun x => decide (x.region = rpt.weakest.key))).map Row.sales).sum ∧
      ∃ qw qs : ℚ,
        rpt.weakest.margin = PFloat.fin qw ∧
        rpt.strongest.margin = PFloat.fin qs ∧
        qw = rpt.weakest.profit / rpt.weakest.sales * 100 ∧
        qs = rpt.strongest.profit / rpt.strongest.sales * 100 ∧
        rpt.potentialImprovement
          = PFloat.fin (rpt.weakest.sales * ((qs - qw) / 100)) ∧
        ∀ r ∈ regionalMargins rows, ∃ qr : ℚ,
          r.margin = PFloat.fin qr ∧ qw ≤ qr ∧ qr ≤ qs := by
  have hsne : sortedMargins rows ≠ [] := by
    unfold sortedMargins
    intro hcon
    have hlen := congrArg List.length hcon
    rw [List.length_insertionSort] at hlen
    exact hne (List.length_eq_zero.1 hlen)
  cases hsort : sortedMargins rows with
  | nil => exact absurd hsort hsne
  | cons w rest =>
    have hmem_sorted : ∀ x, x ∈ w :: rest ↔ x ∈ regionalMargins rows := by
      intro x
      rw [← hsort]
      unfold sortedMargins
      exact List.mem_insertionSort _
    have hw_mem : w ∈ regionalMargins rows :=
      (hmem_sorted w).1 (List.mem_cons_self w rest)
    have hL_mem : (w :: rest).getLast (List.cons_ne_nil w rest) ∈ regionalMargins rows :=
      (hmem_sorted _).1 (List.getLast_mem (List.cons_ne_nil w rest))
    have hrefl : ∀ a : KeyStat, marginLe a a := fun a => PFloat.sortLe_refl a.margin
    have hpair : (w :: rest).Pairwise marginLe := by
      rw [← hsort]
      exact List.sorted_insertionSort marginLe (regionalMargins rows)
    have hminw : ∀ x ∈ w :: rest, marginLe w x :=
      pairwise_head_rel hrefl w rest hpair
    have hmaxL : ∀ x ∈ w :: rest,
        marginLe x ((w :: rest).getLast (List.cons_ne_nil w rest)) :=
      fun x hx => pairwise_rel_getLast hrefl (w :: rest) (List.cons_ne_nil w rest)
        hpair x hx
    have hwfin : w.margin = PFloat.fin (w.profit / w.sales * 100) :=
      margin_fin_of_ne_zero w (margin_shape Row.region rows w hw_mem).1 (hnz w hw_mem)
    have hLfin : ((w :: rest).getLast (List.cons_ne_nil w rest)).margin
        = PFloat.fin (((w :: rest).getLast (List.cons_ne_nil w rest)).profit
            / ((w :: rest).getLast (List.cons_ne_nil w rest)).sales * 100) :=
      margin_fin_of_ne_zero _ (margin_shape Row.region rows _ hL_mem).1 (hnz _ hL_mem)
    have hwsales : w.sales
        = ((rows.filter (fun x => decide (x.region = w.key))).map Row.sales).sum :=
      (margin_shape Row.region rows w hw_mem).2
    have hexcat : ∃ c ∈ categoryMargins
        (rows.filter (fun r => decide (r.region = w.key))), c.sales ≠ 0 := by
      by_contra hno
      push_neg at hno
      have hzero : ((categoryMargins
          (rows.filter (fun r => decide (r.region = w.key)))).map KeyStat.sales).sum = 0 := by
        apply List.sum_eq_zero
        intro x hx
        rcases List.mem_map.1 hx with ⟨c, hc, rfl⟩
        exact hno c hc
      have hTot : ((categoryMargins
          (rows.filter (fun r => decide (r.region = w.key)))).map KeyStat.sales).sum
          = ((rows.filter (fun r => decide (r.region = w.key))).map Row.sales).sum := by
        unfold categoryMargins
        rw [List.map_map]
        exact sum_over_groups Row.category Row.sales _
      exact hnz w hw_mem (by rw [hwsales, ← hTot, hzero])
    obtain ⟨c, hc, hcnz⟩ := hexcat
    have hcnan : c.margin.isNaN = false := by
      rw [margin_fin_of_ne_zero c
        (margin_shape Row.category _ c hc).1 hcnz]
      rfl
    have hidx_some : (idxminMargin (categoryMargins
        (rows.filter (fun r => decide (r.region = w.key))))).isSome :=
      idxminMargin_isSome _ c hc hcnan
    obtain ⟨wc, hwc⟩ := Option.isSome_iff_exists.1 hidx_some
    have hgen := generatePmInsights_eq rows w rest hsort wc hwc
    refine ⟨_, hgen, hw_mem, hL_mem, rfl, hwsales, ?_⟩
    refine ⟨w.profit / w.sales * 100,
            ((w :: rest).getLast (List.cons_ne_nil w rest)).profit
              / ((w :: rest).getLast (List.cons_ne_nil w rest)).sales * 100,
            hwfin, hLfin, rfl, rfl, ?_, ?_⟩
    · show PFloat.fin w.sales
        * ((((w :: rest).getLast (List.cons_ne_nil w rest)).margin - w.margin)
            / PFloat.fin 100) = _
      rw [hwfin, hLfin, PFloat.fin_sub_fin,
          PFloat.fin_div_fin _ _ (by norm_num : (100 : ℚ) ≠ 0), PFloat.fin_mul_fin]
    · intro r hr
      have hrfin : r.margin = PFloat.fin (r.profit / r.sales * 100) :=
        margin_fin_of_ne_zero r (margin_shape Row.region rows r hr).1 (hnz r hr)
      refine ⟨r.profit / r.sales * 100, hrfin, ?_, ?_⟩
      · have h1 : marginLe w r := hminw r ((hmem_sorted r).2 hr)
        unfold marginLe at h1
        rw [hwfin, hrfin] at h1
        simpa using h1
      · have h2 : marginLe r ((w :: rest).getLast (List.cons_ne_nil w rest)) :=
          hmaxL r ((hmem_sorted r).2 hr)
        unfold marginLe at h2
        rw [hLfin, hrfin] at h2
        simpa using h2

/-! ### C1 -/

/-- C1 (amended): whenever the Insight Generator has at least one region
and every regional margin is defined (nonzero per-region sales totals,
the spec's §3 precondition for `margin_pct`), it completes and reports
`potential_improvement = weakest_region_total_sales * (strongest_margin
- weakest_margin) / 100`, where the weakest (resp. strongest) row
attains the minimum (resp. maximum) `margin_pct` over all regions.  At
the spec's two-region example A/B the value is 100 — see the witness.
(With a zero-sales region present the claim fails: the `NaN`-margin
region sorts last and is picked as "strongest" although it has no
defined margin — see the counterexample.) -/
theorem c1_potential_improvement (rows : List Row)
    (hne : regionalMargins rows ≠ [])
    (hnz : ∀ r ∈ regionalMargins rows, r.sales ≠ 0) :
    ∃ rpt, generatePmInsights rows = some rpt ∧
      rpt.weakest ∈ regionalMargins rows ∧
      rpt.strongest ∈ regionalMargins rows ∧
      ∃ qw qs : ℚ,
        rpt.weakest.margin = PFloat.fin qw ∧
        rpt.strongest.margin = PFloat.fin qs ∧
        rpt.potentialImprovement
          = PFloat.fin (rpt.weakest.sales * (qs - qw) / 100) ∧
        ∀ r ∈ regionalMargins rows, ∃ qr : ℚ,
          r.margin = PFloat.fin qr ∧ qw ≤ qr ∧ qr ≤ qs := by
  obtain ⟨rpt, hgen, hwm, hsm, -, -, qw, qs, hqw, hqs, -, -, himp, hbound⟩ :=
    insight_core rows hne hnz
  refine ⟨rpt, hgen, hwm, hsm, qw, qs, hqw, hqs, ?_, hbound⟩
  rw [himp]
  congr 1
  ring

/-- Witness for C1: at the two-region example (A: sales 1000, margin
10%; B: sales 2000, margin 20%) the reported improvement is exactly
`1000 * (20 - 10) / 100 = 100`. -/
theorem c1_witness :
    regionalMargins exAB ≠ [] ∧
    (∀ r ∈ regionalMargins exAB, r.sales ≠ 0) ∧
    (∃ rpt, generatePmInsights exAB = some rpt ∧
      rpt.weakest ∈ regionalMargins exAB ∧
      rpt.strongest ∈ regionalMargins exAB ∧
      ∃ qw qs : ℚ,
        rpt.weakest.margin = PFloat.fin qw ∧
        rpt.strongest.margin = PFloat.fin qs ∧
        rpt.potentialImprovement
          = PFloat.fin (rpt.weakest.sales * (qs - qw) / 100) ∧
        ∀ r ∈ regionalMargins exAB, ∃ qr : ℚ,
          r.margin = PFloat.fin qr ∧ qw ≤ qr ∧ qr ≤ qs) ∧
    (generatePmInsights exAB).map (fun r => r.potentialImprovement)
      = some (PFloat.fin 100) :=
  ⟨by decide, by decide,
   c1_potential_improvement exAB (by decide)
     (by decide),
   by decide⟩

/-- Counterexample for C1 as stated (over EVERY dataset with a region):
in `exNaNMargin` (region 0 with margin 10%, region 1 with zero sales and
zero profit, margin `NaN`) the row picked as "strongest" is the
`NaN`-margin region — not a region of maximum `margin_pct`, which is
undefined for it — and the reported `potential_improvement` is `NaN`,
not `weakest_sales * (strongest_margin - weakest_margin) / 100` over
defined margins (which would be 0 here, both extrema being region 0). -/
theorem c1_cex_nan_margin :
    (generatePmInsights exNaNMargin).map (fun r => r.strongest.margin.isNaN)
      = some true ∧
    (generatePmInsights exNaNMargin).map (fun r => r.weakest.margin)
      = some (PFloat.fin 10) ∧
    (generatePmInsights exNaNMargin).map (fun r => r.potentialImprovement)
      = some PFloat.nan := by
  refine ⟨?_, ?_, ?_⟩ <;> decide

/-! ### C6 -/

/-- The code never emits a "no regional variance" finding. -/
theorem noRegionalVariance_never_emitted (rows : List Row) :
    InsightKind.noRegionalVariance ∉ emittedKinds rows := by
  unfold emittedKinds
  split <;> decide

/-- The weakest-vs-strongest comparison block is always emitted. -/
theorem comparison_always_emitted (rows : List Row) :
    InsightKind.regionUplift ∈ emittedKinds rows ∧
    InsightKind.opportunity ∈ emittedKinds rows := by
  unfold emittedKinds
  split <;> exact ⟨by decide, by decide⟩

/-- A constant column groups into the single key. -/
theorem keysOf_const (f : Row → Nat) (rows : List Row) (a : Nat) (hne : rows ≠ [])
    (hall : ∀ r ∈ rows, f r = a) : keysOf f rows = [a] := by
  have hmap : rows.map f = List.replicate rows.length a := by
    refine List.eq_replicate_iff.2 ⟨by simp, ?_⟩
    intro b hb
    rcases List.mem_map.1 hb with ⟨r, hr, rfl⟩
    exact hall r hr
  unfold keysOf
  have hlen : rows.length ≠ 0 := by
    intro h0
    exact hne (List.length_eq_zero.1 h0)
  rw [hmap, List.replicate_dedup hlen]
  rfl

/-- C6 (amended): on a single-region dataset with a defined margin the
generator completes, weakest and strongest coincide, the opportunity
estimate is exactly 0 and no division raises — but contrary to the
claim, no "no regional variance" insight is emitted: the standard
weakest-vs-strongest comparison is produced unconditionally.  (With a
zero-sales single region the estimate is `NaN`, not 0 — see the
counterexample.) -/
theorem c6_single_region (rows : List Row) (a : Nat)
    (hall : ∀ r ∈ rows, r.region = a) (hne : rows ≠ [])
    (hnz : ∀ r ∈ regionalMargins rows, r.sales ≠ 0) :
    ∃ rpt, generatePmInsights rows = some rpt ∧
      rpt.weakest = rpt.strongest ∧
      rpt.potentialImprovement = PFloat.fin 0 ∧
      InsightKind.noRegionalVariance ∉ rpt.insightKinds ∧
      InsightKind.regionUplift ∈ rpt.insightKinds ∧
      InsightKind.opportunity ∈ rpt.insightKinds := by
  have hrm : regionalMargins rows = [mkKeyStat Row.region rows a] := by
    unfold regionalMargins
    rw [keysOf_const Row.region rows a hne hall]
    rfl
  obtain ⟨rpt, hgen, hwm, hsm, hkinds, -, qw, qs, hqw, hqs, -, -, himp, -⟩ :=
    insight_core rows (by rw [hrm]; exact List.cons_ne_nil _ _) hnz
  have hw : rpt.weakest = mkKeyStat Row.region rows a := by
    rw [hrm] at hwm
    exact List.mem_singleton.1 hwm
  have hs : rpt.strongest = mkKeyStat Row.region rows a := by
    rw [hrm] at hsm
    exact List.mem_singleton.1 hsm
  have hws : rpt.weakest = rpt.strongest := hw.trans hs.symm
  have hqws : qw = qs := by
    have hfin : PFloat.fin qw = PFloat.fin qs := hqw.symm.trans (hws ▸ hqs)
    injection hfin
  refine ⟨rpt, hgen, hws, ?_, hkinds ▸ noRegionalVariance_never_emitted rows,
    hkinds ▸ (comparison_always_emitted rows).1,
    hkinds ▸ (comparison_always_emitted rows).2⟩
  rw [himp, hqws]
  norm_num

/-- Witness for C6 (amended) at a healthy single-region dataset. -/
theorem c6_witness :
    (∀ r ∈ exSingleRegion, r.region = 3) ∧ exSingleRegion ≠ [] ∧
    (∀ r ∈ regionalMargins exSingleRegion, r.sales ≠ 0) ∧
    ∃ rpt, generatePmInsights exSingleRegion = some rpt ∧
      rpt.weakest = rpt.strongest ∧
      rpt.potentialImprovement = PFloat.fin 0 ∧
      InsightKind.noRegionalVariance ∉ rpt.insightKinds ∧
      InsightKind.regionUplift ∈ rpt.insightKinds ∧
      InsightKind.opportunity ∈ rpt.insightKinds :=
  ⟨by decide, by decide,
   by decide,
   c6_single_region exSingleRegion 3 (by decide)
     (by decide) (by decide)⟩

/-- Counterexample for C6 as stated: on the single-region dataset whose
region sells 0 in total, the generator still runs, the opportunity
estimate is `NaN` (not 0), and no "no regional variance" insight is
emitted — the weakest-vs-strongest comparison block is emitted
instead. -/
theorem c6_cex_no_variance_insight :
    (exSingleRegionZeroSales.all (fun r => decide (r.region = 3))) = true ∧
    (generatePmInsights exSingleRegionZeroSales).map
        (fun r => r.potentialImprovement) = some PFloat.nan ∧
    (generatePmInsights exSingleRegionZeroSales).map
        (fun r => decide (InsightKind.noRegionalVariance ∈ r.insightKinds))
      = some false ∧
    (generatePmInsights exSingleRegionZeroSales).map
        (fun r => decide (InsightKind.regionUplift ∈ r.insightKinds))
      = some true := by
  refine ⟨?_, ?_, ?_, ?_⟩ <;> decide

/-! ### C8 -/

/-- C8 (amended): when every regional margin is defined (nonzero
per-region sales totals) and every record's sales amount is
non-negative, the reported `potential_improvement` is a non-negative
rational: the frame is sorted by margin ascending so `strongest_margin ≥
weakest_margin`, and the weakest region's total sales are a sum of
non-negative amounts.  (Without the defined-margin condition the value
can be `NaN` — see the counterexample.) -/
theorem c8_improvement_nonneg (rows : List Row)
    (hne : regionalMargins rows ≠ [])
    (hnz : ∀ r ∈ regionalMargins rows, r.sales ≠ 0)
    (hnn : ∀ r ∈ rows, 0 ≤ r.sales) :
    ∃ rpt, generatePmInsights rows = some rpt ∧
      ∃ q : ℚ, rpt.potentialImprovement = PFloat.fin q ∧ 0 ≤ q ∧
        PFloat.le (PFloat.fin 0) rpt.potentialImprovement = true := by
  obtain ⟨rpt, hgen, hwm, -, -, hwsales, qw, qs, hqw, hqs, -, -, himp, hbound⟩ :=
    insight_core rows hne hnz
  have hw0 : 0 ≤ rpt.weakest.sales := by
    rw [hwsales]
    apply List.sum_nonneg
    intro x hx
    rcases List.mem_map.1 hx with ⟨rr, hrr, rfl⟩
    exact hnn rr (List.mem_filter.1 hrr).1
  have hqwqs : qw ≤ qs := by
    obtain ⟨qr, hqr, h1, h2⟩ := hbound rpt.weakest hwm
    have hrw : qr = qw := by
      have hfin : PFloat.fin qr = PFloat.fin qw := hqr.symm.trans hqw
      injection hfin
    exact hrw ▸ h2
  have hq0 : 0 ≤ rpt.weakest.sales * ((qs - qw) / 100) := by
    apply mul_nonneg hw0
    apply div_nonneg (sub_nonneg.2 hqwqs)
    norm_num
  refine ⟨rpt, hgen, rpt.weakest.sales * ((qs - qw) / 100), himp, hq0, ?_⟩
  rw [himp]
  simpa using hq0

/-- Witness for C8 (amended) at the two-region example. -/
theorem c8_witness :
    regionalMargins exAB ≠ [] ∧
    (∀ r ∈ regionalMargins exAB, r.sales ≠ 0) ∧
    (∀ r ∈ exAB, 0 ≤ r.sales) ∧
    ∃ rpt, generatePmInsights exAB = some rpt ∧
      ∃ q : ℚ, rpt.potentialImprovement = PFloat.fin q ∧ 0 ≤ q ∧
        PFloat.le (PFloat.fin 0) rpt.potentialImprovement = true :=
  ⟨by decide, by decide,
   by decide,
   c8_improvement_nonneg exAB (by decide)
     (by decide) (by decide)⟩

/-- Counterexample for C8 as stated: `exInfMargins` has two regions and
only non-negative record sales amounts, yet the computed
`potential_improvement` is `NaN` (weakest margin `-inf`, strongest
`+inf`, weakest sales 0, and `0 * inf = NaN`), which is not
non-negative under the float comparison. -/
theorem c8_cex_nan_improvement :
    (exInfMargins.all (fun r => decide (0 ≤ r.sales))) = true ∧
    (generatePmInsights exInfMargins).map (fun r => r.potentialImprovement)
      = some PFloat.nan ∧
    (generatePmInsights exInfMargins).map
        (fun r => PFloat.le (PFloat.fin 0) r.potentialImprovement)
      = some false := by
  refine ⟨?_, ?_, ?_⟩ <;> decide

end SalesAnalysis
